import Mathlib

/-!
Verification of the precipitation-pipeline core of the
geospatial-data-analysis repository (src/src/transformations.py and
src/src/spi.py), as a shallow embedding in Lean.

Tables are embedded as lists of structure rows; station codes and calendar
dates are natural numbers (a calendar date is a day count, so date
differences in days are plain subtraction); precipitation values are
rationals; a possibly-missing value (pandas NaN) is an `Option`.
-/

set_option maxRecDepth 8000

/-- `sortDedup r l` is the embedding of the pandas group-key construction:
group keys are the distinct values of `l`, listed in ascending `r` order
(`groupby(key)` with its default `sort=True`). -/
def sortDedup (r : α → α → Prop) [DecidableRel r] [DecidableEq α] (l : List α) : List α :=
  (l.insertionSort r).dedup

/-- `dedupFirst l` removes duplicates keeping first occurrences, the
behaviour of `pandas.Index.unique()` (order of first appearance). -/
def dedupFirst [DecidableEq α] : List α → List α
  | [] => []
  | a :: t => a :: dedupFirst (t.filter (fun x => ¬ (x = a)))
termination_by l => l.length
decreasing_by
  simp only [List.length_cons]
  exact Nat.lt_succ_of_le (List.length_filter_le _ _)

/-- A raw daily observation row: `station_code`, `date`, and a possibly
missing `total_precip` (descriptive payload columns are opaque to the
core and omitted). -/
structure PRow where
  station : Nat
  date : Nat
  precip : Option ℚ
deriving DecidableEq, Repr

/-- The inclusive daily range `[a, b]`, the embedding of
`pd.date_range(start=a, end=b, freq="D")`. -/
def rangeClosed (a b : Nat) : List Nat :=
  (List.range (b + 1 - a)).map (fun i => a + i)

/-- Dataset-wide minimum observed date: the source takes
`unindexed_df.index.get_level_values("date").min()` over the whole table,
not per station. -/
def globalMinDate (rows : List PRow) : Nat :=
  ((rows.map (fun r => r.date)).min?).getD 0

/-- Dataset-wide maximum observed date (again over the whole table). -/
def globalMaxDate (rows : List PRow) : Nat :=
  ((rows.map (fun r => r.date)).max?).getD 0

/-- The left-join step of `fill_missing_dates` at one `(station, date)`
key of the complete index: every matching original row is kept (pandas
`merge(..., how="left")`), and a key with no match produces one row with
missing `total_precip`. -/
def leftJoinRow (rows : List PRow) (s d : Nat) : List PRow :=
  match rows.filter (fun r => r.station = s ∧ r.date = d) with
  | [] => [⟨s, d, none⟩]
  | m => m

/-- Embedding of `fill_missing_dates` (src/src/transformations.py):
the complete index is the product of the station list (first-appearance
order, `Index.unique()`) with the daily range spanning the dataset-wide
min and max date, and the original rows are left-joined onto it. -/
def fill_missing_dates (rows : List PRow) : List PRow :=
  (dedupFirst (rows.map (fun r => r.station))).flatMap (fun s =>
    (rangeClosed (globalMinDate rows) (globalMaxDate rows)).flatMap (fun d =>
      leftJoinRow rows s d))

/-- The known (non-missing) points of a dated series, with their dates. -/
def knowns (l : List (Nat × Option ℚ)) : List (Nat × ℚ) :=
  l.filterMap (fun p => p.2.map (fun v => (p.1, v)))

/-- The nearest known point strictly before position `i` of the series. -/
def lastKnownBefore (l : List (Nat × Option ℚ)) (i : Nat) : Option (Nat × ℚ) :=
  (knowns (l.take i)).getLast?

/-- The nearest known point strictly after position `i` of the series. -/
def firstKnownAfter (l : List (Nat × Option ℚ)) (i : Nat) : Option (Nat × ℚ) :=
  (knowns (l.drop (i + 1))).head?

/-- Value filled at date `t` from the neighbouring known points, the
behaviour of `Series.interpolate(method="time", limit_direction="both")`:
linear in the date between two known neighbours, the nearest known value
beyond the first or last known point, and missing when the series has no
known point at all. -/
def interpVal (t : Nat) : Option (Nat × ℚ) → Option (Nat × ℚ) → Option ℚ
  | some (t1, v1), some (t2, v2) =>
      some (v1 + (v2 - v1) * (((t : ℚ) - (t1 : ℚ)) / ((t2 : ℚ) - (t1 : ℚ))))
  | some (_, v1), none => some v1
  | none, some (_, v2) => some v2
  | none, none => none

/-- Embedding of one station series passing through
`interpolate(method="time", limit_direction="both")`. -/
def timeInterp (l : List (Nat × Option ℚ)) : List (Nat × Option ℚ) :=
  l.enum.map (fun p =>
    (p.2.1,
      match p.2.2 with
      | some v => some v
      | none => interpVal p.2.1 (lastKnownBefore l p.1) (firstKnownAfter l p.1)))

/-- One station's dated series inside a table, in row order
(`interpolated[idx]["total_precip"]` for `idx = station_code == s`). -/
def stationSeries (rows : List PRow) (s : Nat) : List (Nat × Option ℚ) :=
  (rows.filter (fun r => r.station = s)).map (fun r => (r.date, r.precip))

/-- Embedding of `interpolate_total_precip` (src/src/transformations.py):
each station's sub-series is interpolated independently and written back
to the station's row positions; row order is preserved. -/
def interpolate_total_precip (rows : List PRow) : List PRow :=
  rows.enum.map (fun p =>
    ⟨p.2.station, p.2.date,
      ((timeInterp (stationSeries rows p.2.station)).get?
        (((rows.take p.1).filter (fun r => r.station = p.2.station)).length)).bind
        (fun q => q.2)⟩)

/-- An interpolated daily row for the aggregation stage; the date is
carried as the `(year, month, day)` the source reads back through
`df.date.dt.year` / `df.date.dt.month`. -/
structure Daily where
  station : Nat
  year : Nat
  month : Nat
  day : Nat
  precip : ℚ
deriving DecidableEq, Repr

/-- A `(station_code, year, month, total_precip)` row: a monthly total,
and also a rolling-sum row (the source keeps the same columns). -/
structure MRow where
  station : Nat
  year : Nat
  month : Nat
  precip : ℚ
deriving DecidableEq, Repr

/-- Lexicographic order on `(year, month)` group keys. -/
def ymLe (a b : Nat × Nat) : Prop :=
  a.1 < b.1 ∨ (a.1 = b.1 ∧ a.2 ≤ b.2)

instance : DecidableRel ymLe := fun a b => by
  unfold ymLe; infer_instance

instance : IsTotal (Nat × Nat) ymLe := by
  constructor
  intro a b
  obtain ⟨a1, a2⟩ := a
  obtain ⟨b1, b2⟩ := b
  simp only [ymLe]
  omega

instance : IsTrans (Nat × Nat) ymLe := by
  constructor
  intro a b c hab hbc
  obtain ⟨a1, a2⟩ := a
  obtain ⟨b1, b2⟩ := b
  obtain ⟨c1, c2⟩ := c
  simp only [ymLe] at hab hbc ⊢
  omega

/-- The distinct stations of a daily table in ascending order: the outer
level of the sorted `groupby(["station_code", year, month])` key index. -/
def dailyStations (rows : List Daily) : List Nat :=
  sortDedup (fun a b => a ≤ b) (rows.map (fun r => r.station))

/-- One station's sorted distinct `(year, month)` keys: the inner levels
of the sorted group key index. -/
def stationYmKeys (rows : List Daily) (s : Nat) : List (Nat × Nat) :=
  sortDedup ymLe ((rows.filter (fun r => r.station = s)).map (fun r => (r.year, r.month)))

/-- Embedding of the `df.groupby(["station_code", df.date.dt.year,
df.date.dt.month])["total_precip"].sum()` step of
`calculate_stations_rolling_precipitation_sum`: one row per distinct
`(station, year, month)` key, keys in ascending lexicographic order
(station-major, pandas `groupby` sorts its keys), each carrying the sum
of the station's daily values in that month. -/
def monthlyTotals (rows : List Daily) : List MRow :=
  (dailyStations rows).flatMap (fun s =>
    (stationYmKeys rows s).map (fun ym =>
      ⟨s, ym.1, ym.2,
        ((rows.filter (fun r => r.station = s ∧ r.year = ym.1 ∧ r.month = ym.2)).map
          (fun r => r.precip)).sum⟩))

/-- The trailing rolling sums of a value series for a given window: the
value at series position `window - 1 + j` is the sum of the `window`
consecutive values ending there; the first `window - 1` positions produce
nothing (`rolling(window).sum()` makes them NaN and `dropna()` removes
them). -/
def rollingWindows (vals : List ℚ) (window : Nat) : List ℚ :=
  (List.range (vals.length + 1 - window)).map (fun j =>
    (((vals.drop j).take window)).sum)

/-- The rolling-sum rows of one station's monthly block: keys of the kept
positions (the block minus its first `window - 1` rows) paired with the
trailing window sums. -/
def rollingStation (g : List MRow) (window : Nat) : List MRow :=
  List.zipWith (fun r v => ⟨r.station, r.year, r.month, v⟩)
    (g.drop (window - 1)) (rollingWindows (g.map (fun r => r.precip)) window)

/-- Embedding of `calculate_stations_rolling_precipitation_sum`
(src/src/transformations.py): monthly totals, then per-station trailing
rolling sums with the NaN head of each station dropped.  The station list
of the second `groupby` (the stations of `df_sum`) coincides with the
distinct stations of the daily input, which is how it is written here;
`mem_monthlyTotals_station` below records the coincidence. -/
def calculate_stations_rolling_precipitation_sum (rows : List Daily) (window : Nat) :
    List MRow :=
  let m := monthlyTotals rows
  (dailyStations rows).flatMap (fun s =>
    rollingStation (m.filter (fun r => r.station = s)) window)

/-- Keyword arguments of a `scipy.stats.gamma.fit` call.  Per scipy's
documented `rv_continuous.fit` semantics, `loc` and `scale` are starting
guesses for the optimizer, while only the f-prefixed keywords (`fa`/`f0`,
`floc`, `fscale`) hold the corresponding parameter fixed. -/
structure GammaFitKwargs where
  loc : Option ℚ := none
  scale : Option ℚ := none
  fshape : Option ℚ := none
  floc : Option ℚ := none
  fscale : Option ℚ := none
deriving DecidableEq, Repr

/-- Whether a `gamma.fit` call holds the location parameter fixed:
true exactly when `floc` is passed. -/
def GammaFitKwargs.locationFixed (kw : GammaFitKwargs) : Bool :=
  kw.floc.isSome

/-- How many of the gamma distribution's three parameters
(shape, location, scale) a `gamma.fit` call estimates by maximum
likelihood: three minus the number of f-prefixed fixing keywords. -/
def GammaFitKwargs.estimatedParams (kw : GammaFitKwargs) : Nat :=
  3 - ((if kw.fshape.isSome then 1 else 0) +
       (if kw.floc.isSome then 1 else 0) +
       (if kw.fscale.isSome then 1 else 0))

/-- The keyword arguments of the one `stats.gamma.fit` call in the source:
`calculate_gamma_parameters` (src/src/spi.py) calls
`stats.gamma.fit(data, loc=0)`. -/
def calculate_gamma_parameters_kwargs : GammaFitKwargs :=
  { loc := some 0 }

/-- The numeric kernels the SPI stage borrows from scipy, left as a
parameter of the embedding: the gamma maximum-likelihood fit (which may
raise, i.e. return an error), the gamma CDF, and the standard-normal
inverse CDF.  The fitted parameters are the `(shape, loc, scale)` triple
scipy returns. -/
structure SciPy where
  gammaFit : List ℚ → GammaFitKwargs → Except String (ℚ × ℚ × ℚ)
  gammaCdf : ℚ → ℚ × ℚ × ℚ → ℚ
  normPpf : ℚ → ℚ

/-- Embedding of `calculate_gamma_parameters` (src/src/spi.py):
`stats.gamma.fit(data, loc=0)`. -/
def calculate_gamma_parameters (sp : SciPy) (data : List ℚ) : Except String (ℚ × ℚ × ℚ) :=
  sp.gammaFit data calculate_gamma_parameters_kwargs

/-- Embedding of `calculate_gamma_cumulative_probability` (src/src/spi.py):
`stats.gamma.cdf(value, *params)`. -/
def calculate_gamma_cumulative_probability (sp : SciPy) (value : ℚ) (params : ℚ × ℚ × ℚ) : ℚ :=
  sp.gammaCdf value params

/-- Embedding of `get_spi` (src/src/spi.py): fit the gamma parameters on
the whole series, then map every series value through the gamma CDF and
the inverse standard-normal CDF; an uncaught fit exception propagates. -/
def get_spi (sp : SciPy) (precipitation : List ℚ) : Except String (List ℚ) := do
  let gammaParams ← calculate_gamma_parameters sp precipitation
  return precipitation.map (fun val =>
    sp.normPpf (calculate_gamma_cumulative_probability sp val gammaParams))

deriving instance DecidableEq for Except

/-- Sequential effectful map over `Except`, the embedding of applying a
possibly-raising Python function to each `groupby` group in turn: the
first exception aborts the whole traversal. -/
def exceptMapM (f : α → Except String β) : List α → Except String (List β)
  | [] => Except.ok []
  | a :: t => do
    let b ← f a
    let r ← exceptMapM f t
    return b :: r

/-- The distinct stations of a rolling-sum table in ascending order:
the keys of `groupby("station_code")` (pandas sorts group keys). -/
def sortedStations (rows : List MRow) : List Nat :=
  sortDedup (fun a b => a ≤ b) (rows.map (fun r => r.station))

/-- One station's `total_precip` column in row order: the series each
`groupby("station_code")["total_precip"]` group hands to `get_spi`. -/
def groupValues (rows : List MRow) (s : Nat) : List ℚ :=
  (rows.filter (fun r => r.station = s)).map (fun r => r.precip)

/-- A row of the SPI output table: the input row's columns plus the added
`SPI` column. -/
structure SRow where
  station : Nat
  year : Nat
  month : Nat
  precip : ℚ
  spi : ℚ
deriving DecidableEq, Repr

/-- Embedding of `calculate_stations_spi` (src/src/spi.py):
`groupby("station_code")["total_precip"].apply(get_spi)` computes one SPI
list per station, in ascending station order; `.explode()` concatenates
them; assigning `.values` to the copied input attaches the concatenated
values *positionally* to the input rows. -/
def calculate_stations_spi (sp : SciPy) (rows : List MRow) : Except String (List SRow) := do
  let groups ← exceptMapM (fun s => get_spi sp (groupValues rows s)) (sortedStations rows)
  let spi := groups.flatten
  return List.zipWith (fun r v => ⟨r.station, r.year, r.month, r.precip, v⟩) rows spi

/-- The SPI value the engine derives from a series and one of its values:
fit on the series, then CDF and probit on the value. -/
def spiOfValue (sp : SciPy) (series : List ℚ) (v : ℚ) : Except String ℚ :=
  (calculate_gamma_parameters sp series).map (fun p =>
    sp.normPpf (calculate_gamma_cumulative_probability sp v p))

/-- A concrete `SciPy` instance used for closed witnesses: the fit fails
(scipy raises) exactly on a degenerate series — fewer than two points or
a constant (e.g. all-zero) series, the degeneracy the spec names — and
the CDF and probit are placeholder maps, as the claims under proof
quantify over the numeric kernels. -/
def scipyModel : SciPy where
  gammaFit := fun data _ =>
    if data.length < 2 ∨ data.all (fun v => v = data.headD 0) then
      Except.error ("FitError")
    else
      Except.ok (1, 0, 1)
  gammaCdf := fun v _ => v
  normPpf := fun p => p

theorem filter_take_append_filter_drop (p : α → Bool) (l : List α) (j : Nat) :
    (l.take j).filter p ++ (l.drop j).filter p = l.filter p := by
  rw [← List.filter_append, List.take_append_drop]

theorem filter_take_eq (p : α → Bool) (l : List α) (j : Nat) :
    (l.take j).filter p = (l.filter p).take ((l.take j).filter p).length := by
  conv_lhs => rw [← List.take_left ((l.take j).filter p) ((l.drop j).filter p)]
  rw [filter_take_append_filter_drop]

theorem filter_drop_eq (p : α → Bool) (l : List α) (j : Nat) :
    (l.drop j).filter p = (l.filter p).drop ((l.take j).filter p).length := by
  conv_lhs => rw [← List.drop_left ((l.take j).filter p) ((l.drop j).filter p)]
  rw [filter_take_append_filter_drop]

theorem filter_get_count (p : α → Bool) (l : List α) (j : Nat) (a : α)
    (hj : l.get? j = some a) (ha : p a = true) :
    (l.filter p).get? (((l.take j).filter p).length) = some a := by
  have hjlt : j < l.length := by
    by_contra h
    rw [List.get?_eq_none.2 (Nat.le_of_not_lt h)] at hj
    exact Option.noConfusion hj
  rw [List.get?_eq_getElem?, ← List.head?_drop, ← filter_drop_eq]
  rw [List.drop_eq_getElem_cons hjlt]
  have : l[j] = a := by
    have := List.getElem?_eq_getElem hjlt
    rw [List.get?_eq_getElem?] at hj
    rw [this] at hj
    exact Option.some.inj hj
  rw [this, List.filter_cons_of_pos ha, List.head?_cons]

theorem filter_count_succ (p : α → Bool) (l : List α) (j : Nat) (a : α)
    (hj : l.get? j = some a) (ha : p a = true) :
    ((l.take (j + 1)).filter p).length = ((l.take j).filter p).length + 1 := by
  rw [List.take_succ, List.filter_append, List.length_append]
  rw [List.get?_eq_getElem?] at hj
  rw [hj]
  simp [ha]

theorem knowns_append (l₁ l₂ : List (Nat × Option ℚ)) :
    knowns (l₁ ++ l₂) = knowns l₁ ++ knowns l₂ :=
  List.filterMap_append l₁ l₂ _

theorem knowns_cons_some (t : Nat) (v : ℚ) (rest : List (Nat × Option ℚ)) :
    knowns ((t, some v) :: rest) = (t, v) :: knowns rest := rfl

theorem knowns_cons_none (t : Nat) (rest : List (Nat × Option ℚ)) :
    knowns ((t, none) :: rest) = knowns rest := rfl

theorem knowns_eq_nil_of_all_none (l : List (Nat × Option ℚ))
    (h : ∀ q ∈ l, q.2 = none) : knowns l = [] := by
  apply List.filterMap_eq_nil_iff.2
  intro q hq
  rw [h q hq]
  rfl

theorem timeInterp_get?_some (l : List (Nat × Option ℚ)) (j : Nat) (t : Nat) (v : ℚ)
    (h : l.get? j = some (t, some v)) :
    (timeInterp l).get? j = some (t, some v) := by
  unfold timeInterp
  rw [List.get?_eq_getElem?, List.getElem?_map, List.getElem?_enum]
  rw [List.get?_eq_getElem?] at h
  rw [h]
  rfl

theorem timeInterp_get?_none (l : List (Nat × Option ℚ)) (j : Nat) (t : Nat)
    (h : l.get? j = some (t, none)) :
    (timeInterp l).get? j =
      some (t, interpVal t (lastKnownBefore l j) (firstKnownAfter l j)) := by
  unfold timeInterp
  rw [List.get?_eq_getElem?, List.getElem?_map, List.getElem?_enum]
  rw [List.get?_eq_getElem?] at h
  rw [h]
  rfl

theorem stationSeries_filter (rows : List PRow) (s : Nat) :
    stationSeries rows s = (rows.filter (fun r => r.station = s)).map (fun r => (r.date, r.precip)) := rfl

theorem stationSeries_take (rows : List PRow) (s : Nat) (j : Nat) :
    stationSeries (rows.take j) s =
      (stationSeries rows s).take (((rows.take j).filter (fun r => r.station = s)).length) := by
  unfold stationSeries
  rw [filter_take_eq (fun r => decide (r.station = s)) rows j, List.map_take]
  congr 1
  rw [List.length_take]
  exact (Nat.min_eq_left
    (List.Sublist.length_le (List.Sublist.filter _ (List.take_sublist j rows)))).symm

theorem stationSeries_drop (rows : List PRow) (s : Nat) (j : Nat) :
    stationSeries (rows.drop j) s =
      (stationSeries rows s).drop (((rows.take j).filter (fun r => r.station = s)).length) := by
  unfold stationSeries
  rw [filter_drop_eq (fun r => decide (r.station = s)) rows j, List.map_drop]

theorem interpolate_total_precip_get? (rows : List PRow) (j : Nat) (r : PRow)
    (h : rows.get? j = some r) :
    (interpolate_total_precip rows).get? j = some ⟨r.station, r.date,
      ((timeInterp (stationSeries rows r.station)).get?
        (((rows.take j).filter (fun x => x.station = r.station)).length)).bind
        (fun q => q.2)⟩ := by
  unfold interpolate_total_precip
  rw [List.get?_eq_getElem?, List.getElem?_map, List.getElem?_enum]
  rw [List.get?_eq_getElem?] at h
  rw [h]
  rfl

/-- C4: for a station's series, a missing `total_precip` at date `t` lying
strictly between the nearest known value `v1` at `t1` and the nearest
known value `v2` at `t2` (no known value between them) is set by the
GapInterpolator to `v1 + (v2 - v1) * (t - t1) / (t2 - t1)`.  The
neighbour structure is given as a decomposition of the station's series:
`A` is everything up to and including the left neighbour plus the
missing run after it, `B` everything from the right side; `j` is the
row's position in the table and `((rows.take j).filter ...)` locates it
inside its station's series. -/
theorem C4_interior_time_interpolation (rows : List PRow) (s j t t1 t2 : Nat)
    (v1 v2 : ℚ) (A B pre mid1 mid2 post : List (Nat × Option ℚ))
    (hrow : rows.get? j = some ⟨s, t, none⟩)
    (hcnt : ((rows.take j).filter (fun x => x.station = s)).length = A.length)
    (hser : stationSeries rows s = A ++ (t, none) :: B)
    (hA : A = pre ++ (t1, some v1) :: mid1)
    (hB : B = mid2 ++ (t2, some v2) :: post)
    (hmid1 : ∀ q ∈ mid1, q.2 = none)
    (hmid2 : ∀ q ∈ mid2, q.2 = none) :
    (interpolate_total_precip rows).get? j =
      some ⟨s, t, some (v1 + (v2 - v1) * (((t : ℚ) - (t1 : ℚ)) / ((t2 : ℚ) - (t1 : ℚ))))⟩ := by
  have hk : (stationSeries rows s).get? A.length = some (t, none) := by
    rw [hser, List.get?_eq_getElem?, List.getElem?_append_right (Nat.le_refl _)]
    simp
  have hbefore : lastKnownBefore (stationSeries rows s) A.length = some (t1, v1) := by
    unfold lastKnownBefore
    rw [hser, List.take_left, hA, knowns_append, knowns_cons_some,
      knowns_eq_nil_of_all_none mid1 hmid1]
    exact List.getLast?_concat _
  have hafter : firstKnownAfter (stationSeries rows s) A.length = some (t2, v2) := by
    unfold firstKnownAfter
    have hsplit : A ++ (t, none) :: B = (A ++ [(t, none)]) ++ B := by
      simp
    have hlen : A.length + 1 = (A ++ [(t, none)]).length := by
      simp
    rw [hser, hsplit, hlen, List.drop_left, hB, knowns_append,
      knowns_eq_nil_of_all_none mid2 hmid2, knowns_cons_some]
    rfl
  have hout := interpolate_total_precip_get? rows j ⟨s, t, none⟩ hrow
  rw [hout]
  simp only []
  rw [hcnt, timeInterp_get?_none _ _ _ hk, hbefore, hafter]
  rfl

/-- Witness for C4: the spec's two-point example.  Days 1 and 3 are known
with values 10 and 20, day 2 is missing and interpolates to 15. -/
theorem C4_interior_time_interpolation_witness :
    (interpolate_total_precip
      [⟨0, 1, some 10⟩, ⟨0, 2, none⟩, ⟨0, 3, some 20⟩]).get? 1 =
      some ⟨0, 2, some 15⟩ := by
  have h := C4_interior_time_interpolation
    [⟨0, 1, some 10⟩, ⟨0, 2, none⟩, ⟨0, 3, some 20⟩] 0 1 2 1 3 10 20
    [(1, some 10)] [(3, some 20)] [] [] [] []
    (by decide) (by decide) (by decide) (by decide) (by decide) (by decide) (by decide)
  rw [h]
  with_unfolding_all decide

theorem stationSeries_get? (rows : List PRow) (s : Nat) (j : Nat) (r : PRow)
    (hj : rows.get? j = some r) (hs : r.station = s) :
    (stationSeries rows s).get?
      (((rows.take j).filter (fun x => x.station = s)).length) = some (r.date, r.precip) := by
  unfold stationSeries
  rw [List.get?_eq_getElem?, List.getElem?_map, ← List.get?_eq_getElem?]
  rw [filter_get_count (fun x => decide (x.station = s)) rows j r hj (by simp [hs])]
  rfl

theorem knowns_split_at_none (l : List (Nat × Option ℚ)) (k t : Nat)
    (hk : l.get? k = some (t, none)) :
    knowns l = knowns (l.take k) ++ knowns (l.drop (k + 1)) := by
  have hklt : k < l.length := by
    by_contra h
    rw [List.get?_eq_none.2 (Nat.le_of_not_lt h)] at hk
    exact Option.noConfusion hk
  conv_lhs => rw [← List.take_append_drop k l]
  rw [knowns_append, List.drop_eq_getElem_cons hklt]
  have : l[k] = (t, none) := by
    rw [List.get?_eq_getElem?, List.getElem?_eq_getElem hklt] at hk
    exact Option.some.inj hk
  rw [this, knowns_cons_none]

/-- C5: for every station with at least one known `total_precip` value,
after the GapInterpolator every row of that station carries a finite
value; a missing value with no known value before it in the station's
series is filled with the station's first known value, and a missing
value with no known value after it is filled with the station's last
known value (constant nearest-value fill at the boundaries). -/
theorem C5_boundary_fill_and_totality (rows : List PRow) (s : Nat)
    (hne : knowns (stationSeries rows s) ≠ []) :
    (∀ j r, rows.get? j = some r → r.station = s →
      ∃ w : ℚ, (interpolate_total_precip rows).get? j = some ⟨s, r.date, some w⟩)
  ∧ (∀ j r, rows.get? j = some r → r.station = s → r.precip = none →
      knowns (stationSeries (rows.take j) s) = [] →
      (interpolate_total_precip rows).get? j =
        some ⟨s, r.date, (knowns (stationSeries rows s)).head?.map (fun q => q.2)⟩)
  ∧ (∀ j r, rows.get? j = some r → r.station = s → r.precip = none →
      knowns (stationSeries (rows.drop (j + 1)) s) = [] →
      (interpolate_total_precip rows).get? j =
        some ⟨s, r.date, (knowns (stationSeries rows s)).getLast?.map (fun q => q.2)⟩) := by
  refine ⟨?_, ?_, ?_⟩
  · -- every row of the station ends up with a known value
    intro j r hj hs
    have hout := interpolate_total_precip_get? rows j r hj
    rw [hs] at hout
    have hser := stationSeries_get? rows s j r hj hs
    cases hv : r.precip with
    | some v =>
        rw [hv] at hser
        rw [timeInterp_get?_some _ _ _ _ hser] at hout
        exact ⟨v, by rw [hout]; rfl⟩
    | none =>
        rw [hv] at hser
        rw [timeInterp_get?_none _ _ _ hser] at hout
        have hsplit := knowns_split_at_none _ _ _ hser
        cases hb : lastKnownBefore (stationSeries rows s)
            (((rows.take j).filter (fun x => x.station = s)).length) with
        | some q =>
            obtain ⟨tb, vb⟩ := q
            cases ha : firstKnownAfter (stationSeries rows s)
                (((rows.take j).filter (fun x => x.station = s)).length) with
            | some q2 =>
                obtain ⟨ta, va⟩ := q2
                rw [hb, ha] at hout
                exact ⟨_, by rw [hout]; rfl⟩
            | none =>
                rw [hb, ha] at hout
                exact ⟨vb, by rw [hout]; rfl⟩
        | none =>
            cases ha : firstKnownAfter (stationSeries rows s)
                (((rows.take j).filter (fun x => x.station = s)).length) with
            | some q2 =>
                obtain ⟨ta, va⟩ := q2
                rw [hb, ha] at hout
                exact ⟨va, by rw [hout]; rfl⟩
            | none =>
                exfalso
                apply hne
                unfold lastKnownBefore at hb
                unfold firstKnownAfter at ha
                rw [hsplit, List.getLast?_eq_none_iff.1 hb, List.head?_eq_none_iff.1 ha]
                rfl
  · -- a missing run before the first known value gets the first known value
    intro j r hj hs hv hpre
    have hout := interpolate_total_precip_get? rows j r hj
    rw [hs] at hout
    have hser := stationSeries_get? rows s j r hj hs
    rw [hv] at hser
    rw [timeInterp_get?_none _ _ _ hser] at hout
    have hsplit := knowns_split_at_none _ _ _ hser
    rw [stationSeries_take] at hpre
    have hb : lastKnownBefore (stationSeries rows s)
        (((rows.take j).filter (fun x => x.station = s)).length) = none := by
      unfold lastKnownBefore
      rw [hpre]
      rfl
    rw [hsplit, hpre, List.nil_append]
    cases ha : firstKnownAfter (stationSeries rows s)
        (((rows.take j).filter (fun x => x.station = s)).length) with
    | some q2 =>
        obtain ⟨ta, va⟩ := q2
        rw [hb, ha] at hout
        rw [hout]
        unfold firstKnownAfter at ha
        rw [ha]
        rfl
    | none =>
        exfalso
        apply hne
        rw [hsplit, hpre, List.nil_append]
        unfold firstKnownAfter at ha
        exact List.head?_eq_none_iff.1 ha
  · -- a missing run after the last known value gets the last known value
    intro j r hj hs hv hpost
    have hout := interpolate_total_precip_get? rows j r hj
    rw [hs] at hout
    have hser := stationSeries_get? rows s j r hj hs
    rw [hv] at hser
    rw [timeInterp_get?_none _ _ _ hser] at hout
    have hsplit := knowns_split_at_none _ _ _ hser
    rw [stationSeries_drop] at hpost
    have hcnt1 : ((rows.take (j + 1)).filter (fun x => x.station = s)).length =
        ((rows.take j).filter (fun x => x.station = s)).length + 1 :=
      filter_count_succ _ rows j r hj (by simp [hs])
    rw [hcnt1] at hpost
    have ha : firstKnownAfter (stationSeries rows s)
        (((rows.take j).filter (fun x => x.station = s)).length) = none := by
      unfold firstKnownAfter
      rw [hpost]
      rfl
    rw [hsplit, hpost, List.append_nil]
    cases hb : lastKnownBefore (stationSeries rows s)
        (((rows.take j).filter (fun x => x.station = s)).length) with
    | some q =>
        obtain ⟨tb, vb⟩ := q
        rw [hb, ha] at hout
        rw [hout]
        unfold lastKnownBefore at hb
        rw [hb]
        rfl
    | none =>
        exfalso
        apply hne
        rw [hsplit, hpost, List.append_nil]
        unfold lastKnownBefore at hb
        exact List.getLast?_eq_none_iff.1 hb

/-- Witness for C5: a station whose single known value (5 at day 2) fills
both the missing day before it and the missing day after it. -/
theorem C5_boundary_fill_and_totality_witness :
    (interpolate_total_precip [⟨0, 1, none⟩, ⟨0, 2, some 5⟩, ⟨0, 4, none⟩]).get? 0 =
      some ⟨0, 1, some 5⟩ ∧
    (interpolate_total_precip [⟨0, 1, none⟩, ⟨0, 2, some 5⟩, ⟨0, 4, none⟩]).get? 2 =
      some ⟨0, 4, some 5⟩ := by
  have h := C5_boundary_fill_and_totality [⟨0, 1, none⟩, ⟨0, 2, some 5⟩, ⟨0, 4, none⟩] 0
    (by decide)
  constructor
  · have hb := h.2.1 0 ⟨0, 1, none⟩ (by decide) rfl rfl (by decide)
    rw [hb]
    with_unfolding_all decide
  · have hc := h.2.2 2 ⟨0, 4, none⟩ (by decide) rfl rfl (by decide)
    rw [hc]
    with_unfolding_all decide

theorem mem_dedupFirst [DecidableEq α] (l : List α) (x : α) : x ∈ dedupFirst l ↔ x ∈ l := by
  induction l using dedupFirst.induct with
  | case1 => simp [dedupFirst]
  | case2 a t ih =>
    rw [dedupFirst]
    simp only [List.mem_cons, ih, List.mem_filter]
    by_cases hx : x = a <;> simp [hx]

theorem nodup_dedupFirst [DecidableEq α] (l : List α) : (dedupFirst l).Nodup := by
  induction l using dedupFirst.induct with
  | case1 => simp [dedupFirst]
  | case2 a t ih =>
    rw [dedupFirst, List.nodup_cons]
    refine ⟨?_, ih⟩
    intro hmem
    rw [mem_dedupFirst] at hmem
    have h1 := List.of_mem_filter hmem
    simp at h1

theorem filter_flatMap_key [DecidableEq κ] (S : List κ) (key : α → κ) (B : κ → List α)
    (hS : S.Nodup) (hB : ∀ s, ∀ x ∈ B s, key x = s) (s : κ) :
    (S.flatMap B).filter (fun x => key x = s) = if s ∈ S then B s else [] := by
  induction S with
  | nil => simp
  | cons a S ih =>
    rcases List.nodup_cons.1 hS with ⟨ha, hS'⟩
    rw [List.flatMap_cons, List.filter_append, ih hS']
    by_cases has : s = a
    · subst has
      have h1 : (B s).filter (fun x => key x = s) = B s :=
        List.filter_eq_self.2 (fun x hx => by simp [hB s x hx])
      rw [h1, if_neg ha, List.append_nil, if_pos (List.mem_cons_self _ _)]
    · have h1 : (B a).filter (fun x => key x = s) = [] :=
        List.filter_eq_nil_iff.2 (fun x hx => by simp [hB a x hx]; exact fun h => has h.symm)
      rw [h1, List.nil_append]
      exact if_congr (by simp [List.mem_cons, has]) rfl rfl

theorem leftJoinRow_key (rows : List PRow) (s d : Nat) :
    ∀ x ∈ leftJoinRow rows s d, x.station = s ∧ x.date = d := by
  intro x hx
  unfold leftJoinRow at hx
  cases hf : rows.filter (fun r => r.station = s ∧ r.date = d) with
  | nil =>
    rw [hf] at hx
    rcases List.mem_singleton.1 hx with rfl
    exact ⟨rfl, rfl⟩
  | cons a t =>
    rw [hf] at hx
    have hxm : x ∈ rows.filter (fun r => r.station = s ∧ r.date = d) := by
      rw [hf]; exact hx
    simpa using List.of_mem_filter hxm

theorem map_date_leftJoinRow (rows : List PRow)
    (hnd : rows.Pairwise (fun a b => (a.station, a.date) ≠ (b.station, b.date))) (s d : Nat) :
    (leftJoinRow rows s d).map (fun r => r.date) = [d] := by
  unfold leftJoinRow
  cases hf : rows.filter (fun r => r.station = s ∧ r.date = d) with
  | nil => rfl
  | cons a t =>
    have hpw : (a :: t).Pairwise (fun x y => (x.station, x.date) ≠ (y.station, y.date)) := by
      rw [← hf]
      exact List.Pairwise.sublist (List.filter_sublist rows) hnd
    have hkey : ∀ x ∈ a :: t, x.station = s ∧ x.date = d := by
      intro x hx
      have hxm : x ∈ rows.filter (fun r => r.station = s ∧ r.date = d) := by rw [hf]; exact hx
      simpa using List.of_mem_filter hxm
    have ht : t = [] := by
      rw [List.eq_nil_iff_forall_not_mem]
      intro x hx
      have h1 := (List.pairwise_cons.1 hpw).1 x hx
      have h2 := hkey a (List.mem_cons_self _ _)
      have h3 := hkey x (List.mem_cons_of_mem _ hx)
      exact h1 (by rw [h2.1, h2.2, h3.1, h3.2])
    subst ht
    rw [List.map_singleton, (hkey a (List.mem_cons_self _ _)).2]

theorem globalMin_le_globalMax (rows : List PRow) (h : rows ≠ []) :
    globalMinDate rows ≤ globalMaxDate rows := by
  unfold globalMinDate globalMaxDate
  have hne : rows.map (fun r => r.date) ≠ [] := by
    intro hc
    exact h (List.map_eq_nil_iff.1 hc)
  cases hm : (rows.map (fun r => r.date)).min? with
  | none =>
    exfalso
    exact hne (List.min?_eq_none_iff.1 hm)
  | some m =>
    cases hM : (rows.map (fun r => r.date)).max? with
    | none =>
      exfalso
      exact hne (List.max?_eq_none_iff.1 hM)
    | some M =>
      simp only [Option.getD_some]
      obtain ⟨hmem, _⟩ := List.min?_eq_some_iff'.1 hm
      obtain ⟨_, hle⟩ := List.max?_eq_some_iff'.1 hM
      exact hle m hmem

/-- C2 (counterexample to the per-station-span claim): with two stations —
station 0 observed only on day 0, station 1 observed only on day 5 —
station 0's own span is the single day 0, so the claim demands exactly
one row for it; `fill_missing_dates` instead spans every station over
the dataset-wide range and produces six rows for station 0, five of them
outside the station's own span. -/
theorem C2_per_station_span_counterexample :
    ((([⟨0, 0, some 1⟩, ⟨1, 5, some 2⟩] : List PRow).filter
        (fun r => r.station = 0)).map (fun r => r.date) = [0])
  ∧ ((fill_missing_dates [⟨0, 0, some 1⟩, ⟨1, 5, some 2⟩]).filter
        (fun r => r.station = 0)).length = 6
  ∧ ((fill_missing_dates [⟨0, 0, some 1⟩, ⟨1, 5, some 2⟩]).filter
        (fun r => r.station = 0)).length ≠ 1 := by
  refine ⟨?_, ?_, ?_⟩ <;> with_unfolding_all decide

/-- C2 (amended): for every input with unique `(station, date)` keys and
every station of it, the CalendarCompleter output contains exactly one
row per calendar day of the closed interval from the *dataset-wide*
minimum date to the *dataset-wide* maximum date — the per-station date
column equals that full range (hence no duplicates, no gaps), with
`(global_max - global_min).days + 1` rows per station. -/
theorem C2_global_span_calendar (rows : List PRow)
    (hnd : rows.Pairwise (fun a b => (a.station, a.date) ≠ (b.station, b.date)))
    (s : Nat) (hs : s ∈ dedupFirst (rows.map (fun r => r.station))) :
    (((fill_missing_dates rows).filter (fun r => r.station = s)).map (fun r => r.date) =
      rangeClosed (globalMinDate rows) (globalMaxDate rows))
  ∧ ((fill_missing_dates rows).filter (fun r => r.station = s)).length =
      globalMaxDate rows - globalMinDate rows + 1 := by
  have hrne : rows ≠ [] := by
    intro hc
    subst hc
    simp [dedupFirst] at hs
  have hfilter : (fill_missing_dates rows).filter (fun r => r.station = s) =
      (rangeClosed (globalMinDate rows) (globalMaxDate rows)).flatMap
        (fun d => leftJoinRow rows s d) := by
    unfold fill_missing_dates
    rw [filter_flatMap_key _ (fun r => r.station)
      (fun s0 => (rangeClosed (globalMinDate rows) (globalMaxDate rows)).flatMap
        (fun d => leftJoinRow rows s0 d))
      (nodup_dedupFirst _)
      (fun s0 x hx => by
        rcases List.mem_flatMap.1 hx with ⟨d, _, hxd⟩
        exact (leftJoinRow_key rows s0 d x hxd).1) s]
    rw [if_pos hs]
  have hmap : ((fill_missing_dates rows).filter (fun r => r.station = s)).map
      (fun r => r.date) = rangeClosed (globalMinDate rows) (globalMaxDate rows) := by
    rw [hfilter, List.map_flatMap]
    have : ∀ d, (leftJoinRow rows s d).map (fun r => r.date) = [d] :=
      fun d => map_date_leftJoinRow rows hnd s d
    calc (rangeClosed (globalMinDate rows) (globalMaxDate rows)).flatMap
          (fun d => (leftJoinRow rows s d).map (fun r => r.date))
        = (rangeClosed (globalMinDate rows) (globalMaxDate rows)).flatMap
          (fun d => [d]) := by
          apply List.flatMap_congr
          intro d _
          exact this d
      _ = rangeClosed (globalMinDate rows) (globalMaxDate rows) := List.flatMap_singleton' _
  refine ⟨hmap, ?_⟩
  have hlen : ((fill_missing_dates rows).filter (fun r => r.station = s)).length =
      (rangeClosed (globalMinDate rows) (globalMaxDate rows)).length := by
    rw [← List.length_map _ (fun r => r.date), hmap]
  rw [hlen]
  unfold rangeClosed
  rw [List.length_map, List.length_range]
  have := globalMin_le_globalMax rows hrne
  omega

/-- Witness for the amended C2: the two-station example above — each
station's calendar is exactly the six days 0..5 of the dataset-wide
span. -/
theorem C2_global_span_calendar_witness :
    (((fill_missing_dates [⟨0, 0, some 1⟩, ⟨1, 5, some 2⟩]).filter
        (fun r => r.station = 1)).map (fun r => r.date) =
      rangeClosed (globalMinDate [⟨0, 0, some 1⟩, ⟨1, 5, some 2⟩])
        (globalMaxDate [⟨0, 0, some 1⟩, ⟨1, 5, some 2⟩]))
  ∧ ((fill_missing_dates [⟨0, 0, some 1⟩, ⟨1, 5, some 2⟩]).filter
        (fun r => r.station = 1)).length =
      globalMaxDate [⟨0, 0, some 1⟩, ⟨1, 5, some 2⟩] -
        globalMinDate [⟨0, 0, some 1⟩, ⟨1, 5, some 2⟩] + 1 :=
  C2_global_span_calendar [⟨0, 0, some 1⟩, ⟨1, 5, some 2⟩]
    (by with_unfolding_all decide) 1 (by with_unfolding_all decide)

/-- C1: the claim says the gamma fit estimates exactly two parameters
(shape and scale) with the location held fixed at 0.  The source call is
`stats.gamma.fit(data, loc=0)`: under scipy's fit semantics `loc=0` is
only a starting guess (fixing the location requires `floc=0`), so the
call leaves the location free and estimates all three parameters. -/
theorem C1_gamma_fit_location_not_fixed :
    calculate_gamma_parameters_kwargs.locationFixed = false
  ∧ calculate_gamma_parameters_kwargs.estimatedParams = 3
  ∧ calculate_gamma_parameters_kwargs.estimatedParams ≠ 2 := by
  refine ⟨rfl, rfl, ?_⟩
  decide

/-- Strict lexicographic order on `(year, month)` keys. -/
def ymLt (a b : Nat × Nat) : Prop :=
  a.1 < b.1 ∨ (a.1 = b.1 ∧ a.2 < b.2)

/-- Strict lexicographic order on `(station, year, month)` keys. -/
def keyLt (a b : Nat × Nat × Nat) : Prop :=
  a.1 < b.1 ∨ (a.1 = b.1 ∧ (a.2.1 < b.2.1 ∨ (a.2.1 = b.2.1 ∧ a.2.2 < b.2.2)))

/-- The `(station_code, year, month)` key of a monthly or rolling row. -/
def keyOfM (r : MRow) : Nat × Nat × Nat := (r.station, r.year, r.month)

theorem sorted_sortDedup (r : α → α → Prop) [DecidableRel r] [IsTotal α r] [IsTrans α r]
    [DecidableEq α] (l : List α) : List.Sorted r (sortDedup r l) :=
  List.Pairwise.sublist (List.dedup_sublist _) (List.sorted_insertionSort r l)

theorem nodup_sortDedup (r : α → α → Prop) [DecidableRel r] [DecidableEq α] (l : List α) :
    (sortDedup r l).Nodup :=
  List.nodup_dedup _

theorem mem_sortDedup (r : α → α → Prop) [DecidableRel r] [DecidableEq α] (l : List α)
    (x : α) : x ∈ sortDedup r l ↔ x ∈ l := by
  unfold sortDedup
  rw [List.mem_dedup]
  exact (List.perm_insertionSort r l).mem_iff

theorem pairwise_lt_dailyStations (rows : List Daily) :
    List.Pairwise (fun a b => a < b) (dailyStations rows) := by
  have h1 := sorted_sortDedup (fun a b : Nat => a ≤ b) (rows.map (fun r => r.station))
  have h2 := nodup_sortDedup (fun a b : Nat => a ≤ b) (rows.map (fun r => r.station))
  exact (List.Pairwise.and h1 h2).imp (fun h => Nat.lt_of_le_of_ne h.1 h.2)

theorem pairwise_ymLt_stationYmKeys (rows : List Daily) (s : Nat) :
    List.Pairwise ymLt (stationYmKeys rows s) := by
  have h1 := sorted_sortDedup ymLe
    ((rows.filter (fun r => r.station = s)).map (fun r => (r.year, r.month)))
  have h2 := nodup_sortDedup ymLe
    ((rows.filter (fun r => r.station = s)).map (fun r => (r.year, r.month)))
  refine (List.Pairwise.and h1 h2).imp ?_
  intro a b h
  obtain ⟨hle, hne⟩ := h
  simp only [ymLe] at hle
  simp only [ymLt]
  rcases hle with h1' | ⟨h1', h2'⟩
  · exact Or.inl h1'
  · right
    refine ⟨h1', ?_⟩
    have hne2 : a.2 ≠ b.2 := fun hc => hne (Prod.ext_iff.2 ⟨h1', hc⟩)
    omega

theorem mem_monthlyTotals_station (rows : List Daily) (r : MRow)
    (hr : r ∈ monthlyTotals rows) : r.station ∈ dailyStations rows := by
  unfold monthlyTotals at hr
  rcases List.mem_flatMap.1 hr with ⟨s, hs, hrs⟩
  rcases List.mem_map.1 hrs with ⟨ym, _, hym⟩
  rw [← hym]
  exact hs

theorem filter_monthlyTotals (rows : List Daily) (s : Nat) :
    (monthlyTotals rows).filter (fun r => r.station = s) =
      if s ∈ dailyStations rows then
        (stationYmKeys rows s).map (fun ym =>
          ⟨s, ym.1, ym.2,
            ((rows.filter (fun r => r.station = s ∧ r.year = ym.1 ∧ r.month = ym.2)).map
              (fun r => r.precip)).sum⟩)
      else [] := by
  unfold monthlyTotals
  exact filter_flatMap_key (dailyStations rows) (fun r : MRow => r.station)
    (fun s0 => (stationYmKeys rows s0).map (fun ym =>
      ⟨s0, ym.1, ym.2,
        ((rows.filter (fun r => r.station = s0 ∧ r.year = ym.1 ∧ r.month = ym.2)).map
          (fun r => r.precip)).sum⟩))
    (nodup_sortDedup _ _)
    (fun s0 x hx => by
      rcases List.mem_map.1 hx with ⟨ym, _, hym⟩
      rw [← hym])
    s

theorem mem_zipWith (f : α → β → γ) (l : List α) (l' : List β) (x : γ)
    (hx : x ∈ List.zipWith f l l') : ∃ a ∈ l, ∃ b ∈ l', x = f a b := by
  induction l generalizing l' with
  | nil => simp at hx
  | cons a t ih =>
    cases l' with
    | nil => simp at hx
    | cons b t' =>
      rw [List.zipWith_cons_cons] at hx
      rcases List.mem_cons.1 hx with rfl | hx'
      · exact ⟨a, List.mem_cons_self _ _, b, List.mem_cons_self _ _, rfl⟩
      · rcases ih t' hx' with ⟨a0, ha0, b0, hb0, hfx⟩
        exact ⟨a0, List.mem_cons_of_mem _ ha0, b0, List.mem_cons_of_mem _ hb0, hfx⟩

theorem zipWith_fst_sublist (f : α → γ) (l : List α) (l' : List β) :
    (List.zipWith (fun a _ => f a) l l').Sublist (l.map f) := by
  induction l generalizing l' with
  | nil => simp
  | cons a t ih =>
    cases l' with
    | nil => simp
    | cons b t' =>
      rw [List.zipWith_cons_cons, List.map_cons]
      exact List.Sublist.cons₂ _ (ih t')

theorem mem_rollingStation_station (g : List MRow) (window : Nat) (x : MRow)
    (hx : x ∈ rollingStation g window) : ∃ r ∈ g, x.station = r.station := by
  unfold rollingStation at hx
  rcases mem_zipWith _ _ _ _ hx with ⟨a, ha, b, _, hfx⟩
  exact ⟨a, List.mem_of_mem_drop ha, by rw [hfx]⟩

theorem map_keyOfM_rollingStation_sublist (g : List MRow) (window : Nat) :
    ((rollingStation g window).map keyOfM).Sublist (g.map keyOfM) := by
  unfold rollingStation
  rw [List.map_zipWith]
  have h1 : (List.zipWith (fun r _ => keyOfM r) (g.drop (window - 1))
      (rollingWindows (g.map (fun r => r.precip)) window)).Sublist
      ((g.drop (window - 1)).map keyOfM) :=
    zipWith_fst_sublist keyOfM _ _
  have h2 : ((g.drop (window - 1)).map keyOfM).Sublist (g.map keyOfM) :=
    List.Sublist.map keyOfM (List.drop_sublist _ _)
  exact h1.trans h2

theorem pairwise_keyLt_monthlyTotals (rows : List Daily) :
    List.Pairwise keyLt ((monthlyTotals rows).map keyOfM) := by
  unfold monthlyTotals
  rw [List.map_flatMap, List.flatMap_def, List.pairwise_flatten]
  constructor
  · intro l hl
    rcases List.mem_map.1 hl with ⟨s, _, rfl⟩
    rw [List.map_map]
    refine List.Pairwise.map _ ?_ (pairwise_ymLt_stationYmKeys rows s)
    intro a b hab
    simp only [ymLt] at hab
    rcases hab with h | ⟨h, h2⟩
    · exact Or.inr ⟨rfl, Or.inl h⟩
    · exact Or.inr ⟨rfl, Or.inr ⟨h, h2⟩⟩
  · refine List.Pairwise.map _ ?_ (pairwise_lt_dailyStations rows)
    intro s s' hss x hx y hy
    rw [List.map_map] at hx hy
    rcases List.mem_map.1 hx with ⟨ym, _, rfl⟩
    rcases List.mem_map.1 hy with ⟨ym', _, rfl⟩
    exact Or.inl hss

theorem filter_calculate_rolling (rows : List Daily) (window s : Nat) :
    (calculate_stations_rolling_precipitation_sum rows window).filter
        (fun r => r.station = s) =
      rollingStation ((monthlyTotals rows).filter (fun r => r.station = s)) window := by
  simp only [calculate_stations_rolling_precipitation_sum]
  rw [filter_flatMap_key (dailyStations rows) (fun r : MRow => r.station)
    (fun s0 => rollingStation ((monthlyTotals rows).filter (fun r => r.station = s0)) window)
    (nodup_sortDedup _ _)
    (fun s0 x hx => by
      rcases mem_rollingStation_station _ _ _ hx with ⟨r, hr, hst⟩
      show x.station = s0
      rw [hst]
      simpa using List.of_mem_filter hr) s]
  by_cases hs : s ∈ dailyStations rows
  · rw [if_pos hs]
  · rw [if_neg hs]
    have hg : (monthlyTotals rows).filter (fun r => r.station = s) = [] := by
      rw [List.filter_eq_nil_iff]
      intro x hx
      simp only [decide_eq_true_eq]
      intro hc
      exact hs (hc ▸ mem_monthlyTotals_station rows x hx)
    rw [hg]
    simp [rollingStation]

theorem length_rollingStation (g : List MRow) (window : Nat) (hw : 1 ≤ window) :
    (rollingStation g window).length = g.length + 1 - window := by
  unfold rollingStation rollingWindows
  rw [List.length_zipWith, List.length_drop, List.length_map, List.length_range,
    List.length_map]
  omega

theorem rollingWindows_get? (vals : List ℚ) (window j : Nat)
    (hj : j < vals.length + 1 - window) :
    (rollingWindows vals window).get? j = some (((vals.drop j).take window).sum) := by
  unfold rollingWindows
  rw [List.get?_eq_getElem?]
  have hlen : j < ((List.range (vals.length + 1 - window)).map (fun j =>
      (((vals.drop j).take window)).sum)).length := by
    rw [List.length_map, List.length_range]
    exact hj
  rw [List.getElem?_eq_getElem hlen, List.getElem_map, List.getElem_range]

theorem rollingWindows_getElem (vals : List ℚ) (window j : Nat)
    (hj : j < (rollingWindows vals window).length) :
    (rollingWindows vals window)[j] = ((vals.drop j).take window).sum := by
  unfold rollingWindows at hj ⊢
  rw [List.getElem_map, List.getElem_range]

theorem rollingStation_get? (g : List MRow) (window j : Nat) (r0 : MRow) (hw : 1 ≤ window)
    (h : g.get? (window - 1 + j) = some r0) :
    (rollingStation g window).get? j =
      some ⟨r0.station, r0.year, r0.month,
        (((g.map (fun r => r.precip)).drop j).take window).sum⟩ := by
  have hjg : window - 1 + j < g.length := by
    by_contra hc
    rw [List.get?_eq_none.2 (Nat.le_of_not_lt hc)] at h
    exact Option.noConfusion h
  have hj : j < (rollingStation g window).length := by
    rw [length_rollingStation g window hw]
    omega
  have hgj : g[window - 1 + j] = r0 := by
    rw [List.get?_eq_getElem?, List.getElem?_eq_getElem hjg] at h
    exact Option.some.inj h
  rw [List.get?_eq_getElem?, List.getElem?_eq_getElem hj]
  unfold rollingStation
  simp only [List.getElem_zipWith, List.getElem_drop, rollingWindows_getElem, hgj]

/-- C6: for every station and window length `N ≥ 1`, the RollingAggregator
emits no rows for the first `N - 1` entries of the station's monthly
series (the station's output has `length + 1 - N` rows), and the `j`-th
emitted row carries the key of the station's `(N - 1 + j)`-th monthly row
together with the sum of the `N` consecutive monthly totals ending
there. -/
theorem C6_rolling_window_drops_and_sums (rows : List Daily) (window s : Nat)
    (hw : 1 ≤ window) :
    (((calculate_stations_rolling_precipitation_sum rows window).filter
        (fun r => r.station = s)).length =
      ((monthlyTotals rows).filter (fun r => r.station = s)).length + 1 - window)
  ∧ (∀ j r0, ((monthlyTotals rows).filter (fun r => r.station = s)).get? (window - 1 + j) =
        some r0 →
      ((calculate_stations_rolling_precipitation_sum rows window).filter
          (fun r => r.station = s)).get? j =
        some ⟨r0.station, r0.year, r0.month,
          (((((monthlyTotals rows).filter (fun r => r.station = s)).map
            (fun r => r.precip)).drop j).take window).sum⟩) := by
  rw [filter_calculate_rolling]
  exact ⟨length_rollingStation _ window hw,
    fun j r0 h => rollingStation_get? _ window j r0 hw h⟩

/-- Witness for C6: one station with monthly totals `[10, 10, 10]` and
`window_length = 3` emits exactly one row, `30` keyed to the third
month. -/
theorem C6_rolling_window_drops_and_sums_witness :
    (((calculate_stations_rolling_precipitation_sum
        [⟨7, 2020, 1, 1, 10⟩, ⟨7, 2020, 2, 1, 10⟩, ⟨7, 2020, 3, 1, 10⟩] 3).filter
        (fun r => r.station = 7)).length =
      ((monthlyTotals
        [⟨7, 2020, 1, 1, 10⟩, ⟨7, 2020, 2, 1, 10⟩, ⟨7, 2020, 3, 1, 10⟩]).filter
        (fun r => r.station = 7)).length + 1 - 3)
  ∧ (calculate_stations_rolling_precipitation_sum
        [⟨7, 2020, 1, 1, 10⟩, ⟨7, 2020, 2, 1, 10⟩, ⟨7, 2020, 3, 1, 10⟩] 3).filter
        (fun r => r.station = 7) = [⟨7, 2020, 3, 30⟩] :=
  ⟨(C6_rolling_window_drops_and_sums
      [⟨7, 2020, 1, 1, 10⟩, ⟨7, 2020, 2, 1, 10⟩, ⟨7, 2020, 3, 1, 10⟩] 3 7 (by decide)).1,
    by with_unfolding_all decide⟩

theorem rollingWindows_one (vals : List ℚ) : rollingWindows vals 1 = vals := by
  unfold rollingWindows
  apply List.ext_getElem
  · simp
  · intro n h1 h2
    rw [List.getElem_map, List.getElem_range]
    rw [List.take_one, List.head?_drop, List.getElem?_eq_getElem h2]
    simp

theorem zipWith_mk_self (g : List MRow) :
    List.zipWith (fun r v => (⟨r.station, r.year, r.month, v⟩ : MRow)) g
      (g.map (fun r => r.precip)) = g := by
  induction g with
  | nil => rfl
  | cons r t ih => rw [List.map_cons, List.zipWith_cons_cons, ih]

theorem rollingStation_one (g : List MRow) : rollingStation g 1 = g := by
  unfold rollingStation
  rw [Nat.sub_self, List.drop_zero, rollingWindows_one, zipWith_mk_self]

/-- C7: running the rolling aggregation with `window_length = 1` is the
identity on the monthly series — the output is exactly the monthly-totals
table, every row retained with every key and value unchanged. -/
theorem C7_window_one_identity (rows : List Daily) :
    calculate_stations_rolling_precipitation_sum rows 1 = monthlyTotals rows := by
  simp only [calculate_stations_rolling_precipitation_sum]
  conv_rhs => rw [monthlyTotals]
  apply List.flatMap_congr
  intro s hs
  rw [filter_monthlyTotals, if_pos hs, rollingStation_one]

theorem station_of_mem_keyOfM_rollingStation_filter (m : List MRow) (s window : Nat)
    (x : Nat × Nat × Nat)
    (hx : x ∈ (rollingStation (m.filter (fun r => r.station = s)) window).map keyOfM) :
    x.1 = s := by
  rcases List.mem_map.1 hx with ⟨x', hx', rfl⟩
  rcases mem_rollingStation_station _ _ _ hx' with ⟨r, hr, hst⟩
  have hrs : r.station = s := by simpa using List.of_mem_filter hr
  simp only [keyOfM]
  rw [hst, hrs]

/-- C9: for every daily input, in any row order, the output of the
monthly-and-rolling aggregation stage is sorted strictly ascending by
`(station_code, year, month)` — the sorted `groupby` keys establish
chronological order per station, whatever the input order was. -/
theorem C9_rolling_output_sorted (rows : List Daily) (window : Nat) (_hw : 1 ≤ window) :
    List.Sorted keyLt
      ((calculate_stations_rolling_precipitation_sum rows window).map keyOfM) := by
  simp only [calculate_stations_rolling_precipitation_sum]
  unfold List.Sorted
  rw [List.map_flatMap, List.flatMap_def, List.pairwise_flatten]
  constructor
  · intro l hl
    rcases List.mem_map.1 hl with ⟨s, _, rfl⟩
    refine List.Pairwise.sublist ?_ (pairwise_keyLt_monthlyTotals rows)
    exact (map_keyOfM_rollingStation_sublist _ window).trans
      (List.Sublist.map keyOfM (List.filter_sublist _))
  · refine List.Pairwise.map _ ?_ (pairwise_lt_dailyStations rows)
    intro s s' hss x hx y hy
    have hx1 := station_of_mem_keyOfM_rollingStation_filter _ _ _ _ hx
    have hy1 := station_of_mem_keyOfM_rollingStation_filter _ _ _ _ hy
    exact Or.inl (by rw [hx1, hy1]; exact hss)

/-- Witness for C9: a two-station input given in descending station order
still yields a sorted output. -/
theorem C9_rolling_output_sorted_witness :
    List.Sorted keyLt
      ((calculate_stations_rolling_precipitation_sum
        [⟨5, 2020, 2, 1, 2⟩, ⟨5, 2020, 1, 1, 4⟩, ⟨3, 2021, 1, 1, 1⟩] 1).map keyOfM) :=
  C9_rolling_output_sorted
    [⟨5, 2020, 2, 1, 2⟩, ⟨5, 2020, 1, 1, 4⟩, ⟨3, 2021, 1, 1, 1⟩] 1 (by decide)

/-- The SPI value `calculate_stations_spi` would attach to a row `r`, as a
function of the row's own station's series and the row's own value (`0`
stands in for the unreachable failed-fit branch on the success path). -/
def rowSpi (sp : SciPy) (rows : List MRow) (r : MRow) : ℚ :=
  match calculate_gamma_parameters sp (groupValues rows r.station) with
  | Except.ok p => sp.normPpf (calculate_gamma_cumulative_probability sp r.precip p)
  | Except.error _ => 0

/-- The rows of a rolling-sum table are grouped by station in ascending
station order — true of the table the rolling stage actually hands to
`calculate_stations_spi` (its keys are sorted station-major). -/
def stationGrouped (rows : List MRow) : Prop :=
  rows = (sortedStations rows).flatMap (fun s => rows.filter (fun r => r.station = s))

instance (rows : List MRow) : Decidable (stationGrouped rows) := by
  unfold stationGrouped
  infer_instance

theorem exceptMapM_error_of_mem (f : α → Except String β) (l : List α) (x : α)
    (hx : x ∈ l) (e : String) (he : f x = Except.error e) :
    ∃ e2, exceptMapM f l = Except.error e2 := by
  induction l with
  | nil => simp at hx
  | cons a t ih =>
    rcases List.mem_cons.1 hx with rfl | hx'
    · exact ⟨e, by unfold exceptMapM; rw [he]; rfl⟩
    · cases hfa : f a with
      | error e3 => exact ⟨e3, by unfold exceptMapM; rw [hfa]; rfl⟩
      | ok b =>
        rcases ih hx' with ⟨e2, h2⟩
        exact ⟨e2, by unfold exceptMapM; rw [hfa, h2]; rfl⟩

theorem exceptMapM_ok (f : α → Except String β) (l : List α) (gs : List β)
    (h : exceptMapM f l = Except.ok gs) :
    List.Forall₂ (fun a b => f a = Except.ok b) l gs := by
  induction l generalizing gs with
  | nil =>
    unfold exceptMapM at h
    rw [← Except.ok.inj h]
    exact List.Forall₂.nil
  | cons a t ih =>
    unfold exceptMapM at h
    cases hfa : f a with
    | error e =>
      rw [hfa] at h
      exact absurd (show Except.error e = Except.ok gs from h) (by simp)
    | ok b =>
      rw [hfa] at h
      cases hmt : exceptMapM f t with
      | error e =>
        rw [hmt] at h
        exact absurd (show Except.error e = Except.ok gs from h) (by simp)
      | ok rs =>
        rw [hmt] at h
        have hg : b :: rs = gs := Except.ok.inj (show Except.ok (b :: rs) = Except.ok gs from h)
        rw [← hg]
        exact List.Forall₂.cons hfa (ih rs hmt)

theorem forall₂_exists_of_mem_left (R : α → β → Prop) (l1 : List α) (l2 : List β)
    (hf : List.Forall₂ R l1 l2) (x : α) (hx : x ∈ l1) : ∃ y ∈ l2, R x y := by
  induction hf with
  | nil => simp at hx
  | cons hab _ ih =>
    rcases List.mem_cons.1 hx with rfl | hx'
    · exact ⟨_, List.mem_cons_self _ _, hab⟩
    · rcases ih hx' with ⟨y, hy, hxy⟩
      exact ⟨y, List.mem_cons_of_mem _ hy, hxy⟩

theorem calculate_stations_spi_ok (sp : SciPy) (rows : List MRow) (out : List SRow)
    (h : calculate_stations_spi sp rows = Except.ok out) :
    ∃ gs, exceptMapM (fun s => get_spi sp (groupValues rows s)) (sortedStations rows) =
        Except.ok gs
      ∧ out = List.zipWith (fun r v => ⟨r.station, r.year, r.month, r.precip, v⟩)
          rows gs.flatten := by
  unfold calculate_stations_spi at h
  cases hm : exceptMapM (fun s => get_spi sp (groupValues rows s)) (sortedStations rows) with
  | error e =>
    rw [hm] at h
    exact absurd (show Except.error e = Except.ok out from h) (by simp)
  | ok gs =>
    rw [hm] at h
    exact ⟨gs, rfl, (Except.ok.inj (show Except.ok _ = Except.ok out from h)).symm⟩

theorem get_spi_ok_length (sp : SciPy) (series : List ℚ) (vs : List ℚ)
    (h : get_spi sp series = Except.ok vs) : vs.length = series.length := by
  unfold get_spi at h
  cases hp : calculate_gamma_parameters sp series with
  | error e =>
    rw [hp] at h
    exact absurd (show Except.error e = Except.ok vs from h) (by simp)
  | ok p =>
    rw [hp] at h
    have := Except.ok.inj (show Except.ok _ = Except.ok vs from h)
    rw [← this, List.length_map]

theorem sum_indicator_of_nodup (S : List Nat) (x : Nat) (hS : S.Nodup) (hx : x ∈ S) :
    (S.map (fun s => if x = s then 1 else 0)).sum = 1 := by
  induction S with
  | nil => simp at hx
  | cons a T ih =>
    rcases List.nodup_cons.1 hS with ⟨haT, hT⟩
    rcases List.mem_cons.1 hx with rfl | hx'
    · rw [List.map_cons, List.sum_cons, if_pos rfl]
      have hzero : (T.map (fun s => if x = s then 1 else 0)).sum = 0 := by
        apply List.sum_eq_zero
        intro y hy
        rcases List.mem_map.1 hy with ⟨s, hsT, rfl⟩
        rw [if_neg]
        intro hc
        exact haT (hc ▸ hsT)
      rw [hzero]
    · have hxa : x ≠ a := by
        intro hc
        exact haT (hc ▸ hx')
      rw [List.map_cons, List.sum_cons, if_neg hxa, ih hT hx', Nat.zero_add]

theorem sum_filter_lengths (l : List MRow) (S : List Nat) (hS : S.Nodup)
    (hall : ∀ r ∈ l, r.station ∈ S) :
    (S.map (fun s => (l.filter (fun r => r.station = s)).length)).sum = l.length := by
  induction l with
  | nil => simp
  | cons a t ih =>
    have h1 : ∀ r ∈ t, r.station ∈ S := fun r hr => hall r (List.mem_cons_of_mem _ hr)
    have hsplit : S.map (fun s => ((a :: t).filter (fun r => r.station = s)).length) =
        S.map (fun s => (if a.station = s then 1 else 0) +
          (t.filter (fun r => r.station = s)).length) := by
      apply List.map_congr_left
      intro s _
      rw [List.filter_cons]
      by_cases has : a.station = s
      · rw [if_pos (by simp [has]), if_pos has, List.length_cons]
        omega
      · rw [if_neg (by simp [has]), if_neg has, Nat.zero_add]
    rw [hsplit, List.sum_map_add, sum_indicator_of_nodup S a.station hS (hall a (List.mem_cons_self _ _)),
      ih h1, List.length_cons, Nat.add_comm]

theorem mem_sortedStations (rows : List MRow) (r : MRow) (hr : r ∈ rows) :
    r.station ∈ sortedStations rows := by
  unfold sortedStations
  rw [mem_sortDedup]
  exact List.mem_map.2 ⟨r, hr, rfl⟩

theorem groups_lengths_eq (sp : SciPy) (rows : List MRow) (S : List Nat)
    (gs : List (List ℚ))
    (hf : List.Forall₂ (fun s b => get_spi sp (groupValues rows s) = Except.ok b) S gs) :
    gs.map (fun g => g.length) =
      S.map (fun s => (rows.filter (fun r => r.station = s)).length) := by
  induction hf with
  | nil => rfl
  | cons hab hrest ih =>
    rw [List.map_cons, List.map_cons, ih]
    have := get_spi_ok_length _ _ _ hab
    rw [this]
    unfold groupValues
    rw [List.length_map]

theorem flatten_groups_length (sp : SciPy) (rows : List MRow) (gs : List (List ℚ))
    (h : exceptMapM (fun s => get_spi sp (groupValues rows s)) (sortedStations rows) =
      Except.ok gs) : gs.flatten.length = rows.length := by
  have hf := exceptMapM_ok _ _ _ h
  rw [List.length_flatten, groups_lengths_eq sp rows _ _ hf]
  exact sum_filter_lengths rows (sortedStations rows) (nodup_sortDedup _ _)
    (fun r hr => mem_sortedStations rows r hr)

theorem zipWith_left_eq (l : List α) (l' : List β) (h : l.length ≤ l'.length) :
    List.zipWith (fun a _ => a) l l' = l := by
  induction l generalizing l' with
  | nil => rfl
  | cons a t ih =>
    cases l' with
    | nil => simp at h
    | cons b t' =>
      rw [List.zipWith_cons_cons, ih t' (by simpa using h)]

theorem zipWith_map_right_self (g : α → β → γ) (f : α → β) (l : List α) :
    List.zipWith g l (l.map f) = l.map (fun x => g x (f x)) := by
  induction l with
  | nil => rfl
  | cons a t ih => rw [List.map_cons, List.zipWith_cons_cons, List.map_cons, ih]

theorem flatten_eq_map_rowSpi (sp : SciPy) (rows : List MRow) (S : List Nat)
    (gs : List (List ℚ))
    (hf : List.Forall₂ (fun s b => get_spi sp (groupValues rows s) = Except.ok b) S gs) :
    gs.flatten = (S.flatMap (fun s => rows.filter (fun r => r.station = s))).map
      (fun r => rowSpi sp rows r) := by
  induction hf with
  | nil => rfl
  | @cons a b S2 gs2 hab hrest ih =>
    rw [List.flatten_cons, List.flatMap_cons, List.map_append, ih]
    congr 1
    unfold get_spi at hab
    cases hp : calculate_gamma_parameters sp (groupValues rows a) with
    | error e =>
      rw [hp] at hab
      exact absurd (show Except.error e = Except.ok b from hab) (by simp)
    | ok p =>
      rw [hp] at hab
      have hb := Except.ok.inj (show Except.ok _ = Except.ok b from hab)
      rw [← hb]
      unfold groupValues
      rw [List.map_map]
      apply List.map_congr_left
      intro r hr
      have hrs : r.station = a := by simpa using List.of_mem_filter hr
      show sp.normPpf (calculate_gamma_cumulative_probability sp r.precip p) = rowSpi sp rows r
      unfold rowSpi
      rw [hrs, hp]

/-- C3 (counterexample): with a numeric kernel whose gamma fit raises on a
degenerate (constant) series — the degeneracy the spec names — a batch
holding degenerate station 0 and healthy station 1 makes
`calculate_stations_spi` fail as a whole: station 1's rows, which succeed
when the station is processed alone, are lost, and no per-station
warning or marking exists.  This refutes the claim that a per-station
failure does not abort the remaining stations. -/
theorem C3_degenerate_station_aborts_batch_counterexample :
    calculate_stations_spi scipyModel
      [⟨0, 2020, 1, 5⟩, ⟨0, 2020, 2, 5⟩, ⟨1, 2020, 1, 3⟩, ⟨1, 2020, 2, 9⟩] =
      Except.error ("FitError")
  ∧ calculate_stations_spi scipyModel [⟨1, 2020, 1, 3⟩, ⟨1, 2020, 2, 9⟩] =
      Except.ok [⟨1, 2020, 1, 3, 3⟩, ⟨1, 2020, 2, 9, 9⟩] := by
  constructor <;> with_unfolding_all decide

/-- C3 (amended): the SPI stage has no per-station failure handling — for
any numeric kernel, if the gamma fit raises on any one station's series,
the uncaught exception propagates out of the per-group apply and
`calculate_stations_spi` produces no output for any station; no
per-station warning or invalid-marking is emitted on any path. -/
theorem C3_fit_error_aborts_all_stations (sp : SciPy) (rows : List MRow) (s : Nat)
    (e : String) (hs : s ∈ sortedStations rows)
    (he : get_spi sp (groupValues rows s) = Except.error e) :
    ∃ e2, calculate_stations_spi sp rows = Except.error e2 := by
  rcases exceptMapM_error_of_mem (fun s0 => get_spi sp (groupValues rows s0))
    (sortedStations rows) s hs e he with ⟨e2, h2⟩
  exact ⟨e2, by unfold calculate_stations_spi; rw [h2]; rfl⟩

/-- Witness for the amended C3: degenerate station 0 in a two-station
batch aborts the whole computation. -/
theorem C3_fit_error_aborts_all_stations_witness :
    ∃ e2, calculate_stations_spi scipyModel
      [⟨0, 2020, 1, 5⟩, ⟨0, 2020, 2, 5⟩, ⟨1, 2020, 1, 3⟩, ⟨1, 2020, 2, 9⟩] =
      Except.error e2 :=
  C3_fit_error_aborts_all_stations scipyModel
    [⟨0, 2020, 1, 5⟩, ⟨0, 2020, 2, 5⟩, ⟨1, 2020, 1, 3⟩, ⟨1, 2020, 2, 9⟩] 0 ("FitError")
    (by with_unfolding_all decide) (by with_unfolding_all decide)

/-- C8 (counterexample): the SPI column is attached *positionally* after a
station-sorting groupby, so on an input whose rows are not grouped in
ascending station order the values land on the wrong rows.  Here the
first output row (station 1, rolling sum 10) receives SPI 20 — the value
the engine derived from station 0's series — while the SPI the engine
derives from station 1's own series at value 10 is 10. -/
theorem C8_positional_misalignment_counterexample :
    calculate_stations_spi scipyModel
      [⟨1, 2020, 1, 10⟩, ⟨1, 2020, 2, 30⟩, ⟨0, 2020, 1, 20⟩, ⟨0, 2020, 2, 40⟩] =
      Except.ok [⟨1, 2020, 1, 10, 20⟩, ⟨1, 2020, 2, 30, 40⟩,
        ⟨0, 2020, 1, 20, 10⟩, ⟨0, 2020, 2, 40, 30⟩]
  ∧ spiOfValue scipyModel
      (groupValues [⟨1, 2020, 1, 10⟩, ⟨1, 2020, 2, 30⟩, ⟨0, 2020, 1, 20⟩, ⟨0, 2020, 2, 40⟩] 1)
      10 = Except.ok 10
  ∧ (20 : ℚ) ≠ 10 := by
  refine ⟨?_, ?_, ?_⟩ <;> with_unfolding_all decide

/-- C8 (amended): provided the input rows are grouped by station in
ascending station order — as the rolling stage's output is — the SPI
stage emits exactly one SPI per input row, each output row keeps its
input row's key and rolling-sum value, and each row's SPI is the value
the engine derives from that row's own station series and own value. -/
theorem C8_spi_alignment_on_grouped_input (sp : SciPy) (rows : List MRow)
    (out : List SRow) (hg : stationGrouped rows)
    (h : calculate_stations_spi sp rows = Except.ok out) :
    out = rows.map (fun r => ⟨r.station, r.year, r.month, r.precip, rowSpi sp rows r⟩)
  ∧ ∀ r ∈ rows, spiOfValue sp (groupValues rows r.station) r.precip =
      Except.ok (rowSpi sp rows r) := by
  obtain ⟨gs, hgs, rfl⟩ := calculate_stations_spi_ok sp rows out h
  have hf := exceptMapM_ok _ _ _ hgs
  have hflat : gs.flatten = rows.map (fun r => rowSpi sp rows r) := by
    rw [flatten_eq_map_rowSpi sp rows _ _ hf, ← hg]
  constructor
  · rw [hflat, zipWith_map_right_self]
  · intro r hr
    have hsmem : r.station ∈ sortedStations rows := mem_sortedStations rows r hr
    rcases forall₂_exists_of_mem_left _ _ _ hf r.station hsmem with ⟨b, _, hb⟩
    unfold get_spi at hb
    cases hp : calculate_gamma_parameters sp (groupValues rows r.station) with
    | error e =>
      rw [hp] at hb
      exact absurd (show Except.error e = Except.ok b from hb) (by simp)
    | ok p =>
      unfold spiOfValue rowSpi
      rw [hp]
      rfl

/-- Witness for the amended C8: a station-grouped two-station input gets
one SPI per row, aligned row by row. -/
theorem C8_spi_alignment_on_grouped_input_witness :
    ([⟨0, 2020, 1, 20, 20⟩, ⟨0, 2020, 2, 40, 40⟩, ⟨1, 2020, 1, 10, 10⟩,
        ⟨1, 2020, 2, 30, 30⟩] : List SRow) =
      ([⟨0, 2020, 1, 20⟩, ⟨0, 2020, 2, 40⟩, ⟨1, 2020, 1, 10⟩, ⟨1, 2020, 2, 30⟩] :
        List MRow).map (fun r => ⟨r.station, r.year, r.month, r.precip,
          rowSpi scipyModel
            [⟨0, 2020, 1, 20⟩, ⟨0, 2020, 2, 40⟩, ⟨1, 2020, 1, 10⟩, ⟨1, 2020, 2, 30⟩] r⟩) :=
  (C8_spi_alignment_on_grouped_input scipyModel
    [⟨0, 2020, 1, 20⟩, ⟨0, 2020, 2, 40⟩, ⟨1, 2020, 1, 10⟩, ⟨1, 2020, 2, 30⟩]
    [⟨0, 2020, 1, 20, 20⟩, ⟨0, 2020, 2, 40, 40⟩, ⟨1, 2020, 1, 10, 10⟩, ⟨1, 2020, 2, 30, 30⟩]
    (by with_unfolding_all decide) (by with_unfolding_all decide)).1

/-- C10: on its success path `calculate_stations_spi` returns a table
with exactly one row per input row, in input order, whose non-SPI
columns are the input rows unchanged (the source copies the input and
only adds the `SPI` column, leaving its argument unmutated). -/
theorem C10_spi_preserves_input_rows (sp : SciPy) (rows : List MRow) (out : List SRow)
    (h : calculate_stations_spi sp rows = Except.ok out) :
    out.length = rows.length
  ∧ out.map (fun r => (⟨r.station, r.year, r.month, r.precip⟩ : MRow)) = rows := by
  obtain ⟨gs, hgs, rfl⟩ := calculate_stations_spi_ok sp rows out h
  have hlen := flatten_groups_length sp rows gs hgs
  constructor
  · rw [List.length_zipWith, hlen, Nat.min_self]
  · rw [List.map_zipWith]
    show List.zipWith (fun r _ => r) rows gs.flatten = rows
    exact zipWith_left_eq rows gs.flatten (by rw [hlen])

/-- Witness for C10: a concrete run whose output projects back to the
input rows. -/
theorem C10_spi_preserves_input_rows_witness :
    ([⟨1, 2020, 1, 3, 3⟩, ⟨1, 2020, 2, 9, 9⟩] : List SRow).length =
      ([⟨1, 2020, 1, 3⟩, ⟨1, 2020, 2, 9⟩] : List MRow).length
  ∧ ([⟨1, 2020, 1, 3, 3⟩, ⟨1, 2020, 2, 9, 9⟩] : List SRow).map
      (fun r => (⟨r.station, r.year, r.month, r.precip⟩ : MRow)) =
      [⟨1, 2020, 1, 3⟩, ⟨1, 2020, 2, 9⟩] :=
  C10_spi_preserves_input_rows scipyModel [⟨1, 2020, 1, 3⟩, ⟨1, 2020, 2, 9⟩]
    [⟨1, 2020, 1, 3, 3⟩, ⟨1, 2020, 2, 9, 9⟩] (by with_unfolding_all decide)
